import Mathlib

/-!
Shallow embedding of the LevelSequencerAudioTrimmer plugin
(Source/LevelSequencerAudioTrimmer), covering the trim-times data model
(`Data/LSATTrimTimesData.cpp`) and the trimming pipeline
(`LSATUtilsLibrary.cpp`).

Conventions of the embedding:
* `int32` millisecond values are modelled as `Int`; C++ `/` on `int32`
  (truncation toward zero) is `Int.tdiv`.  The claims under study do not
  exercise 32-bit overflow of the millisecond arithmetic itself; the cast
  to `uint32` performed by `GetTypeHash` is modelled explicitly by
  reduction mod 2^32.
* `USoundWave*` pointers are modelled as `Option USoundWave` (with `none`
  for `nullptr`); a `USoundWave` carries an abstract identity and its
  total duration in milliseconds (the source stores a float duration in
  seconds and computes `FMath::CeilToInt(Duration * 1000.f)`; the model
  carries the resulting millisecond value directly).
* `UMovieSceneAudioSection*` pointers are opaque identities (`Nat`),
  `nullptr` modelled by `Option`.
* The global `ULSATSettings::Get().MinDifferenceMs` tolerance is passed
  as an explicit parameter `tol`.
-/

namespace LSAT

/-- Models `USoundWave`: an abstract asset identity together with its total
duration in milliseconds (`FLSATTrimTimes::GetSoundTotalDurationMs` for a
non-null wave). -/
structure USoundWave where
  id : Nat
  totalDurationMs : Int
deriving DecidableEq

/-- An opaque `UMovieSceneAudioSection*` identity. -/
abbrev SectionId := Nat

/-- The `uint32` bit pattern of an `int32` value, as a natural number
(two's-complement reduction mod 2^32).  Models the implicit
`int32 -> uint32` conversion done by `GetTypeHash(int32)`. -/
def toUInt32Pattern (i : Int) : Nat := (i % (4294967296 : Int)).toNat

/-- Models `GetTypeHash(USoundWave*)`: an opaque but fixed hash of the
pointer value.  The claims only depend on equal pointers hashing equally,
so the abstract identity itself (reduced to 32 bits) is used. -/
def soundWaveTypeHash : Option USoundWave → Nat
  | none => 0
  | some sw => sw.id % 4294967296

/-- Models `FLSATTrimTimes` (LSATTrimTimesData.h): a start and end time in
milliseconds into a sound-wave asset. -/
structure FLSATTrimTimes where
  SoundTrimStartMs : Int
  SoundTrimEndMs : Int
  SoundWave : Option USoundWave
deriving DecidableEq

namespace FLSATTrimTimes

/-- The distinguished invalid sentinel `FLSATTrimTimes::Invalid = {-1, -1, nullptr}`. -/
def Invalid : FLSATTrimTimes := ⟨-1, -1, none⟩

/-- Models `FLSATTrimTimes::GetSoundTotalDurationMs`:
`SoundWave ? FMath::CeilToInt(SoundWave->Duration * 1000.f) : 0`. -/
def GetSoundTotalDurationMs (t : FLSATTrimTimes) : Int :=
  match t.SoundWave with
  | some sw => sw.totalDurationMs
  | none => 0

/-- Models `FLSATTrimTimes::GetUsageDurationMs`: `SoundTrimEndMs - SoundTrimStartMs`. -/
def GetUsageDurationMs (t : FLSATTrimTimes) : Int :=
  t.SoundTrimEndMs - t.SoundTrimStartMs

/-- Models `FLSATTrimTimes::IsLooping` (LSATTrimTimesData.cpp, lines 68-74):
the end time exceeds the total duration, and the excess is at least
`MinDifferenceMs`. -/
def IsLooping (tol : Int) (t : FLSATTrimTimes) : Bool :=
  let DifferenceMs : Int := t.SoundTrimEndMs - t.GetSoundTotalDurationMs
  decide (t.SoundTrimEndMs > t.GetSoundTotalDurationMs) && decide (DifferenceMs ≥ tol)

/-- Models `FLSATTrimTimes::IsSoundTrimmed` (LSATTrimTimesData.cpp, lines 106-113). -/
def IsSoundTrimmed (tol : Int) (t : FLSATTrimTimes) : Bool :=
  let DifferenceMs : Int := t.GetSoundTotalDurationMs - t.GetUsageDurationMs
  decide (DifferenceMs < tol) && decide (t.SoundTrimStartMs < tol)

/-- Models `FLSATTrimTimes::IsValid` (LSATTrimTimesData.cpp, lines 115-121):
start and end non-negative and the sound wave non-null. -/
def IsValid (t : FLSATTrimTimes) : Bool :=
  decide (t.SoundTrimStartMs ≥ 0) && decide (t.SoundTrimEndMs ≥ 0) && t.SoundWave.isSome

/-- Models `FLSATTrimTimes::GetMaxTrimTimes` (LSATTrimTimesData.cpp, lines
154-162): component-wise maximum of the two windows, keeping the left
argument's sound wave. -/
def GetMaxTrimTimes (Left Right : FLSATTrimTimes) : FLSATTrimTimes :=
  ⟨max Left.SoundTrimStartMs Right.SoundTrimStartMs,
   max Left.SoundTrimEndMs Right.SoundTrimEndMs,
   Left.SoundWave⟩

end FLSATTrimTimes

/-- Models `GetTypeHash(const FLSATTrimTimes&)` (LSATTrimTimesData.cpp,
lines 194-208): endpoints are divided by the tolerance (C++ `int32`
division, i.e. truncation toward zero), multiplied back, and the two
rounded values are XOR-combined with the sound-wave pointer hash. -/
def getTypeHash (tol : Int) (t : FLSATTrimTimes) : Nat :=
  let StartDivided : Int := t.SoundTrimStartMs.tdiv tol
  let EndDivided : Int := t.SoundTrimEndMs.tdiv tol
  let RoundedStart : Int := StartDivided * tol
  let RoundedEnd : Int := EndDivided * tol
  Nat.xor (Nat.xor (toUInt32Pattern RoundedStart) (toUInt32Pattern RoundedEnd))
    (soundWaveTypeHash t.SoundWave)

/-- Models `FLSATTrimTimes::operator==` (LSATTrimTimesData.cpp, lines
188-192): `GetTypeHash(*this) == GetTypeHash(Other)`. -/
def operatorEq (tol : Int) (a b : FLSATTrimTimes) : Bool :=
  getTypeHash tol a == getTypeHash tol b

/-- Models `FLSATSectionsContainer`: an insertion-ordered array of audio
sections, extended through `AddUnique`. -/
structure FLSATSectionsContainer where
  AudioSections : List SectionId
deriving DecidableEq

namespace FLSATSectionsContainer

/-- Models `FLSATSectionsContainer::Add` (LSATTrimTimesData.cpp, lines
226-229): `AudioSections.AddUnique(AudioSection)`, which appends the
section unless already present; the C++ function returns the resulting
index `>= 0`, hence always true. -/
def Add (c : FLSATSectionsContainer) (s : SectionId) : FLSATSectionsContainer :=
  if s ∈ c.AudioSections then c else ⟨c.AudioSections ++ [s]⟩

end FLSATSectionsContainer

/-- Models `FLSATTrimTimesMap`: the `TMap` from trim times to section
containers, as an insertion-ordered association list. -/
structure FLSATTrimTimesMap where
  entries : List (FLSATTrimTimes × FLSATSectionsContainer)
deriving DecidableEq

namespace FLSATTrimTimesMap

/-- The empty map. -/
def empty : FLSATTrimTimesMap := ⟨[]⟩

/-- The keys of the map, in order. -/
def keys (m : FLSATTrimTimesMap) : List FLSATTrimTimes := m.entries.map Prod.fst

/-- The loop body of `FLSATTrimTimesMap::Add` (LSATTrimTimesData.cpp, lines
330-343): scan the entries for the first key with `TrimTimesRef ==
TrimTimes`; if found, replace that key by
`GetMaxTrimTimes(TrimTimes, TrimTimesRef)` and `AddUnique` the section to
its container; otherwise `FindOrAdd` appends a fresh entry at the end. -/
def addScan (tol : Int) (TrimTimes : FLSATTrimTimes) (sec : SectionId) :
    List (FLSATTrimTimes × FLSATSectionsContainer) →
    List (FLSATTrimTimes × FLSATSectionsContainer)
  | [] => [(TrimTimes, ⟨[sec]⟩)]
  | (k, v) :: rest =>
    if operatorEq tol k TrimTimes then
      (FLSATTrimTimes.GetMaxTrimTimes TrimTimes k, v.Add sec) :: rest
    else
      (k, v) :: addScan tol TrimTimes sec rest

/-- Models `FLSATTrimTimesMap::Add(TrimTimes, AudioSection)`
(LSATTrimTimesData.cpp, lines 322-344).  The failed `ensureMsgf` guards
(null section, invalid trim times) return false without mutating the map;
otherwise the scan/insert above runs and the call returns true. -/
def Add (tol : Int) (m : FLSATTrimTimesMap) (TrimTimes : FLSATTrimTimes)
    (AudioSection : Option SectionId) : Bool × FLSATTrimTimesMap :=
  match AudioSection with
  | none => (false, m)
  | some sec =>
    if TrimTimes.IsValid then
      (true, ⟨addScan tol TrimTimes sec m.entries⟩)
    else
      (false, m)

/-- Folds a sequence of `(TrimTimes, AudioSection)` insertions through `Add`,
modelling a map built only through its `Add` operation. -/
def ofAdds (tol : Int) (l : List (FLSATTrimTimes × Option SectionId)) : FLSATTrimTimesMap :=
  l.foldl (fun m p => (m.Add tol p.1 p.2).2) empty

end FLSATTrimTimesMap

/-!
Fragmentation of trim windows
(`ULSATUtilsLibrary::GetFragmentedTrimTimes`, LSATUtilsLibrary.cpp, lines
1092-1129).
-/

/-- Models `TSet<int32>::Add`: append the value unless already present
(first occurrence kept, insertion order preserved). -/
def addUniqueInt (l : List Int) (x : Int) : List Int :=
  if x ∈ l then l else l ++ [x]

/-- The split-point collection loop of `GetFragmentedTrimTimes`: every
start and end time of every window is added to the set. -/
def collectSplitPoints (ts : List FLSATTrimTimes) : List Int :=
  ts.foldl (fun acc t => addUniqueInt (addUniqueInt acc t.SoundTrimStartMs) t.SoundTrimEndMs) []

/-- The segment-forming loop of `GetFragmentedTrimTimes`: for each pair of
consecutive split points, keep the segment unless its duration is below
`MinDifferenceMs`. -/
def segmentsBetween (tol : Int) (sw : Option USoundWave) : List Int → List FLSATTrimTimes
  | [] => []
  | [_] => []
  | a :: b :: rest =>
    if b - a < tol then segmentsBetween tol sw (b :: rest)
    else ⟨a, b, sw⟩ :: segmentsBetween tol sw (b :: rest)

/-- Models `ULSATUtilsLibrary::GetFragmentedTrimTimes`: collect all distinct
start/end points, sort them ascending (`TArray::Sort`), and form the
segments between consecutive points, dropping those shorter than the
tolerance. -/
def getFragmentedTrimTimes (tol : Int) (InOutTrimTimes : List FLSATTrimTimes)
    (sw : Option USoundWave) : List FLSATTrimTimes :=
  let SortedSplitPointsMs := (collectSplitPoints InOutTrimTimes).insertionSort (· ≤ ·)
  segmentsBetween tol sw SortedSplitPointsMs

/-- Specification-side description of the split points (used to compare
against the source embedding): the sorted list of all distinct endpoint
values across all windows. -/
def specSortedEndpoints (ts : List FLSATTrimTimes) : List Int :=
  ((ts.flatMap fun t => [t.SoundTrimStartMs, t.SoundTrimEndMs]).dedup).insertionSort (· ≤ ·)

/-- Specification-side description of the fragmentation result: the
segments between consecutive sorted distinct endpoints, omitting every
segment whose duration is strictly below the tolerance. -/
def specFragmentedTrimTimes (tol : Int) (ts : List FLSATTrimTimes)
    (sw : Option USoundWave) : List FLSATTrimTimes :=
  segmentsBetween tol sw (specSortedEndpoints ts)

/-!
Duplicate-asset name derivation
(`ULSATUtilsLibrary::DuplicateSoundWave`, LSATUtilsLibrary.cpp, lines
791-826).  Asset names are modelled as lists of characters.
-/

/-- Models `FChar::IsDigit`: an ASCII decimal digit. -/
def isDigitChar (c : Char) : Bool :=
  decide ('0' ≤ c) && decide (c ≤ '9')

/-- Models `FString::FindLastCharByPredicate`: the index of the last
character satisfying the predicate, or `-1` (`INDEX_NONE`) when there is
none. -/
def findLastCharByPredicate (p : Char → Bool) : List Char → Int
  | [] => -1
  | c :: rest =>
    let r := findLastCharByPredicate p rest
    if r ≥ 0 then 1 + r
    else if p c then 0 else -1

/-- The numeric value of a digit character. -/
def digitVal (c : Char) : Nat := c.toNat - Char.toNat '0'

/-- Models `FCString::Atoi` on a run of decimal digits (the only shape it
is applied to in `DuplicateSoundWave`, namely `Name.Mid(Index + 1)`). -/
def atoiNat (l : List Char) : Nat :=
  l.foldl (fun acc c => 10 * acc + digitVal c) 0

/-- The decimal digit character for a value below ten. -/
def digitChar : Nat → Char
  | 0 => '0' | 1 => '1' | 2 => '2' | 3 => '3' | 4 => '4'
  | 5 => '5' | 6 => '6' | 7 => '7' | 8 => '8' | _ => '9'

/-- The decimal representation of a natural number (no leading zeros),
modelling the `%d` formatting of `FString::Printf`. -/
def natToChars (n : Nat) : List Char :=
  if _h : n < 10 then [digitChar n]
  else natToChars (n / 10) ++ [digitChar (n % 10)]
decreasing_by exact Nat.div_lt_self (by omega) (by omega)

/-- Models the `NewObjectName` lambda of `ULSATUtilsLibrary::DuplicateSoundWave`
(LSATUtilsLibrary.cpp, lines 797-803): find the last non-digit character;
if digits trail it, parse them and add `DuplicateIndex`, otherwise use
`DuplicateIndex` itself; the new name is the prefix up to and including
the last non-digit, followed by the decimal form of the new index. -/
def deriveDuplicateName (Name : List Char) (DuplicateIndex : Nat) : List Char :=
  let Index : Int := findLastCharByPredicate (fun c => !(isDigitChar c)) Name
  let NewIndex : Nat :=
    if Index + 1 < (Name.length : Int) then atoiNat (Name.drop (Index + 1).toNat) + DuplicateIndex
    else DuplicateIndex
  Name.take (Index + 1).toNat ++ natToChars NewIndex

/-- Models the name-collision guard of `DuplicateSoundWave`
(LSATUtilsLibrary.cpp, lines 805-808): if the derived name equals the
original, the `ensureMsgf` assertion fires and the function returns null
(`none`); otherwise duplication proceeds under the derived name. -/
def duplicateSoundWaveName (Name : List Char) (DuplicateIndex : Nat) : Option (List Char) :=
  let NewObjectName := deriveDuplicateName Name DuplicateIndex
  if Name = NewObjectName then none else some NewObjectName

/-- The length of the trailing run of characters satisfying `q` (the
specification-side notion of "trailing run of digits"). -/
def trailingRun (q : Char → Bool) : List Char → Nat
  | [] => 0
  | c :: rest =>
    if trailingRun q rest = rest.length && q c then rest.length + 1
    else trailingRun q rest

/-!
The executor main flow
(`ULSATUtilsLibrary::RunLevelSequenceAudioTrimmer`, LSATUtilsLibrary.cpp,
lines 139-186, together with `ResetTrimmedAudioSection`, lines 745-768,
and `DeleteTempWavFile`, lines 770-785).  The export / ffmpeg-trim /
reimport collaborators are external processes; their success or failure
for the i-th attempted section is provided by an environment.  The file
system holding the temporary WAV files is a set of paths.
-/

/-- A temporary WAV file path: the exported file
(`<asset>.wav`) or the trimmed file (`<asset>_trimmed.wav`) of a given
sound wave identity. -/
inductive WavPath
  | exported (sw : Nat)
  | trimmed (sw : Nat)
deriving DecidableEq

/-- Outcomes of the external collaborator calls: success of the i-th
export / trim / reimport attempt, and of deleting an existing file. -/
structure ExecEnv where
  exportOk : Nat → Bool
  trimOk : Nat → Bool
  reimportOk : Nat → Bool
  deleteOk : WavPath → Bool

/-- Mutable state of an audio section, as touched by the executor:
`SetStartOffset`, `SetLooping`, `SetSound`. -/
structure SectionState where
  startOffsetMs : Int
  bLooping : Bool
  sound : Option Nat
deriving DecidableEq

/-- Models `ULSATUtilsLibrary::ResetTrimmedAudioSection` (lines 745-768):
set the sound if a new one is given, then start offset to 0 and looping
off. -/
def resetTrimmedAudioSection (OptionalNewSound : Option Nat) (st : SectionState) :
    SectionState :=
  { startOffsetMs := 0
    bLooping := false
    sound := match OptionalNewSound with
      | some s => some s
      | none => st.sound }

/-- Pointwise update of the section store. -/
def updateStore (store : SectionId → SectionState) (s : SectionId)
    (st : SectionState) : SectionId → SectionState :=
  fun s2 => if s2 = s then st else store s2

/-- Models `ULSATUtilsLibrary::DeleteTempWavFile` (lines 770-785): when the
file exists, delete it and report the file manager's result; when it does
not exist, report success. -/
def deleteTempWavFile (env : ExecEnv) (fs : List WavPath) (p : WavPath) :
    Bool × List WavPath :=
  if p ∈ fs then
    if env.deleteOk p then (true, fs.erase p) else (false, fs)
  else
    (true, fs)

/-- Adds a path to the file system (exporting overwrites an identical
path, `bReplaceIdentical`). -/
def createFile (fs : List WavPath) (p : WavPath) : List WavPath :=
  if p ∈ fs then fs else p :: fs

/-- Observable collaborator calls made while processing a group. -/
inductive ExecEvent
  | exportCall (sw : Nat) (ok : Bool)
  | trimCall (ok : Bool)
  | reimportCall (ok : Bool)
  | resetCall (s : SectionId)
  | deleteCall (p : WavPath) (ret : Bool)
deriving DecidableEq

/-- Models the per-group section loop of `RunLevelSequenceAudioTrimmer`
(LSATUtilsLibrary.cpp, lines 140-186).  `sw` is the (possibly duplicated)
sound wave the group trims into, `k` counts the attempted (non-reuse)
sections for the environment, `bReuse` is `bReuseFurtherSections`.
Returns the event trace, the final file system, and the final section
store. -/
def processSections (env : ExecEnv) (sw : Nat) :
    List SectionId → Nat → Bool → List WavPath → (SectionId → SectionState) →
    List ExecEvent × List WavPath × (SectionId → SectionState)
  | [], _, _, fs, store => ([], fs, store)
  | s :: rest, k, bReuse, fs, store =>
    if bReuse then
      -- reuse the already-trimmed sound wave: only reset this section
      let store1 := updateStore store s (resetTrimmedAudioSection (some sw) (store s))
      let r := processSections env sw rest k true fs store1
      (.resetCall s :: r.1, r.2)
    else if env.exportOk k then
      let fs1 := createFile fs (.exported sw)
      if env.trimOk k then
        let fs2 := createFile fs1 (.trimmed sw)
        if env.reimportOk k then
          let store1 := updateStore store s (resetTrimmedAudioSection (some sw) (store s))
          let d1 := deleteTempWavFile env fs2 (.exported sw)
          let d2 := deleteTempWavFile env d1.2 (.trimmed sw)
          let r := processSections env sw rest (k + 1) true d2.2 store1
          (.exportCall sw true :: .trimCall true :: .reimportCall true :: .resetCall s ::
            .deleteCall (.exported sw) d1.1 :: .deleteCall (.trimmed sw) d2.1 :: r.1, r.2)
        else
          -- reimport failed: continue with the next section, no cleanup
          let r := processSections env sw rest (k + 1) false fs2 store
          (.exportCall sw true :: .trimCall true :: .reimportCall false :: r.1, r.2)
      else
        -- trim failed: continue with the next section, no cleanup
        let r := processSections env sw rest (k + 1) false fs1 store
        (.exportCall sw true :: .trimCall false :: r.1, r.2)
    else
      -- export failed: continue with the next section
      let r := processSections env sw rest (k + 1) false fs store
      (.exportCall sw false :: r.1, r.2)

/-- The number of successful export+trim+reimport sequences in a trace
(each one ends in a successful reimport call). -/
def countReimportSuccess (tr : List ExecEvent) : Nat :=
  tr.countP fun e =>
    match e with
    | .reimportCall true => true
    | _ => false

/-- The number of `DeleteTempWavFile` calls in a trace. -/
def countDeleteCalls (tr : List ExecEvent) : Nat :=
  tr.countP fun e =>
    match e with
    | .deleteCall _ _ => true
    | _ => false

/-!
Pass ordering of the pipeline
(`ULSATUtilsLibrary::RunLevelSequenceAudioTrimmer`, LSATUtilsLibrary.cpp,
lines 27-64): the gathering phase runs per requested level sequence and
includes `GatherSoundsOutsideSequences` (which applies the
sounds-outside-sequences policy, lines 493-556); the preprocessing passes
run once afterwards, unless the gathered multimap is empty.
-/

/-- The named passes of the pipeline. -/
inductive PipelinePass
  | gatherRequestedSequence
  | gatherOtherSequences
  | gatherOutsideSequences
  | trackBoundaries
  | largeStartOffset
  | loopingSoundsPolicy
  | segmentsReusePolicy
deriving DecidableEq

/-- The gathering passes run for each requested level sequence
(LSATUtilsLibrary.cpp, lines 39-44). -/
def gatherPassesPerSequence : List PipelinePass :=
  [.gatherRequestedSequence, .gatherOtherSequences, .gatherOutsideSequences]

/-- The preprocessing passes run once after gathering
(LSATUtilsLibrary.cpp, lines 61-64). -/
def preprocessingPasses : List PipelinePass :=
  [.trackBoundaries, .largeStartOffset, .loopingSoundsPolicy, .segmentsReusePolicy]

/-- The sequence of passes performed by `RunLevelSequenceAudioTrimmer` for
`numSequences` requested level sequences; when the gathered multimap is
empty the function returns before preprocessing (lines 55-59). -/
def runPassTrace (numSequences : Nat) (bMultiMapEmpty : Bool) : List PipelinePass :=
  (List.replicate numSequences gatherPassesPerSequence).flatten ++
    (if bMultiMapEmpty then [] else preprocessingPasses)

/-!
Theorems.
-/

/-- Claim C1, counterexample: with tolerance 200, the windows `[199, 400)`
and `[200, 400)` on the same asset differ by at most the tolerance at both
endpoints, yet `operator==` compares them unequal and their hashes differ,
because the hash buckets endpoints by truncated division rather than by
distance. -/
theorem c1_counterexample :
    ((199 : Int) - 200).natAbs ≤ 200 ∧ ((400 : Int) - 400).natAbs ≤ 200 ∧ (0 : Int) < 200 ∧
    (FLSATTrimTimes.mk 199 400 (some ⟨7, 10000⟩)).SoundWave =
      (FLSATTrimTimes.mk 200 400 (some ⟨7, 10000⟩)).SoundWave ∧
    operatorEq 200 ⟨199, 400, some ⟨7, 10000⟩⟩ ⟨200, 400, some ⟨7, 10000⟩⟩ = false ∧
    getTypeHash 200 ⟨199, 400, some ⟨7, 10000⟩⟩ ≠
      getTypeHash 200 ⟨200, 400, some ⟨7, 10000⟩⟩ := by
  decide

/-- Claim C1 (amended): for every two TrimTimes values with the same
sound-wave asset whose start times have the same truncated quotient by
MinDifferenceMs and whose end times have the same truncated quotient,
`operator==` returns true and `GetTypeHash` returns identical values. -/
theorem c1_bucket_equality (tol : Int) (a b : FLSATTrimTimes)
    (hw : a.SoundWave = b.SoundWave)
    (hs : a.SoundTrimStartMs.tdiv tol = b.SoundTrimStartMs.tdiv tol)
    (he : a.SoundTrimEndMs.tdiv tol = b.SoundTrimEndMs.tdiv tol) :
    operatorEq tol a b = true ∧ getTypeHash tol a = getTypeHash tol b := by
  have hh : getTypeHash tol a = getTypeHash tol b := by
    unfold getTypeHash
    rw [hw, hs, he]
  exact ⟨by simp [operatorEq, hh], hh⟩

/-- Witness for `c1_bucket_equality` at tolerance 200 on the windows
`[0, 5000)` and `[150, 5000)` of one asset. -/
theorem c1_bucket_equality_witness :
    operatorEq 200 ⟨0, 5000, some ⟨7, 10000⟩⟩ ⟨150, 5000, some ⟨7, 10000⟩⟩ = true ∧
    getTypeHash 200 ⟨0, 5000, some ⟨7, 10000⟩⟩ =
      getTypeHash 200 ⟨150, 5000, some ⟨7, 10000⟩⟩ :=
  c1_bucket_equality 200 ⟨0, 5000, some ⟨7, 10000⟩⟩ ⟨150, 5000, some ⟨7, 10000⟩⟩
    rfl (by decide) (by decide)

/-- Claim C7: with a non-null asset and a positive tolerance, `IsLooping`
returns true exactly when the window end exceeds the asset's total
duration by at least `MinDifferenceMs`; in particular the boundary case of
an excess of exactly `MinDifferenceMs` is looping, and an excess below
`MinDifferenceMs` is not. -/
theorem c7_isLooping_iff (tol : Int) (t : FLSATTrimTimes)
    (htol : 0 < tol) (_hw : t.SoundWave.isSome = true) :
    (t.IsLooping tol = true ↔ tol ≤ t.SoundTrimEndMs - t.GetSoundTotalDurationMs) ∧
    (t.SoundTrimEndMs - t.GetSoundTotalDurationMs = tol → t.IsLooping tol = true) := by
  have hmain : t.IsLooping tol = true ↔ tol ≤ t.SoundTrimEndMs - t.GetSoundTotalDurationMs := by
    unfold FLSATTrimTimes.IsLooping
    simp only [Bool.and_eq_true, decide_eq_true_eq, ge_iff_le]
    constructor
    · rintro ⟨_, h2⟩
      exact h2
    · intro hge
      exact ⟨by omega, hge⟩
  refine ⟨hmain, fun heq => hmain.mpr (by omega)⟩

/-- Witness for `c7_isLooping_iff`: with tolerance 200, a window ending at
10200 on an asset of total duration 10000 is looping. -/
theorem c7_isLooping_iff_witness :
    (FLSATTrimTimes.mk 0 10200 (some ⟨7, 10000⟩)).IsLooping 200 = true :=
  ((c7_isLooping_iff 200 ⟨0, 10200, some ⟨7, 10000⟩⟩ (by decide) (by decide)).1).mpr (by decide)

/-- Claim C9: for every fixed positive `MinDifferenceMs`, the
tolerance-bucketed `operator==` is an equivalence relation (reflexive,
symmetric, transitive), because it is defined as equality of the bucketed
hashes. -/
theorem c9_operatorEq_equivalence (tol : Int) (_htol : 0 < tol) :
    Equivalence (fun a b : FLSATTrimTimes => operatorEq tol a b = true) := by
  constructor
  · intro a
    simp [operatorEq]
  · intro a b hab
    simp only [operatorEq, beq_iff_eq] at hab ⊢
    exact hab.symm
  · intro a b c hab hbc
    simp only [operatorEq, beq_iff_eq] at hab hbc ⊢
    exact hab.trans hbc

/-- Witness for `c9_operatorEq_equivalence` at tolerance 200, exercised on
concrete windows. -/
theorem c9_operatorEq_equivalence_witness :
    operatorEq 200 ⟨199, 400, some ⟨7, 10000⟩⟩ ⟨199, 400, some ⟨7, 10000⟩⟩ = true ∧
    operatorEq 200 ⟨150, 400, some ⟨7, 10000⟩⟩ ⟨199, 400, some ⟨7, 10000⟩⟩ = true :=
  ⟨(c9_operatorEq_equivalence 200 (by decide)).refl ⟨199, 400, some ⟨7, 10000⟩⟩,
   (c9_operatorEq_equivalence 200 (by decide)).symm (by decide)⟩

/-- Claim C10: `FLSATTrimTimesMap::Add` with a null section, or with trim
times having a negative start, a negative end, or a null sound wave,
returns false and leaves the map unchanged. -/
theorem c10_add_invalid_unchanged (tol : Int) (m : FLSATTrimTimesMap)
    (TrimTimes : FLSATTrimTimes) (AudioSection : Option SectionId)
    (h : AudioSection = none ∨ TrimTimes.SoundTrimStartMs < 0 ∨
      TrimTimes.SoundTrimEndMs < 0 ∨ TrimTimes.SoundWave = none) :
    m.Add tol TrimTimes AudioSection = (false, m) := by
  rcases h with h | h
  · subst h
    rfl
  · cases AudioSection with
    | none => rfl
    | some s =>
      have hv : TrimTimes.IsValid = false := by
        unfold FLSATTrimTimes.IsValid
        rcases h with h | h | h
        · simp [decide_eq_false (by omega : ¬ TrimTimes.SoundTrimStartMs ≥ 0)]
        · simp [decide_eq_false (by omega : ¬ TrimTimes.SoundTrimEndMs ≥ 0)]
        · simp [h]
      simp [FLSATTrimTimesMap.Add, hv]

/-- When no entry of the list has a key comparing `==`-equal to the new
trim times, the `Add` scan appends a fresh entry at the end
(`TrimTimesMap.FindOrAdd`). -/
theorem addScan_of_not_found (tol : Int) (tt : FLSATTrimTimes) (sec : SectionId) :
    ∀ l : List (FLSATTrimTimes × FLSATSectionsContainer),
      (∀ p ∈ l, operatorEq tol p.1 tt = false) →
      FLSATTrimTimesMap.addScan tol tt sec l = l ++ [(tt, ⟨[sec]⟩)] := by
  intro l
  induction l with
  | nil => intro _; rfl
  | cons hd tl ih =>
    intro hall
    obtain ⟨k, v⟩ := hd
    have hk : operatorEq tol k tt = false := hall (k, v) (by simp)
    simp only [FLSATTrimTimesMap.addScan, hk]
    simp only [Bool.false_eq_true, if_false, List.cons_append, List.cons.injEq, true_and]
    exact ih fun p hp => hall p (by simp [hp])

/-- When the first `==`-equal key sits after a prefix of non-equal keys,
the `Add` scan replaces that key with `GetMaxTrimTimes(TrimTimes, key)`,
adds the section to its container, and leaves every other entry
untouched. -/
theorem addScan_of_found (tol : Int) (tt : FLSATTrimTimes) (sec : SectionId) :
    ∀ (pre : List (FLSATTrimTimes × FLSATSectionsContainer)) (k : FLSATTrimTimes)
      (v : FLSATSectionsContainer) (post : List (FLSATTrimTimes × FLSATSectionsContainer)),
      (∀ p ∈ pre, operatorEq tol p.1 tt = false) →
      operatorEq tol k tt = true →
      FLSATTrimTimesMap.addScan tol tt sec (pre ++ (k, v) :: post) =
        pre ++ (FLSATTrimTimes.GetMaxTrimTimes tt k, v.Add sec) :: post := by
  intro pre
  induction pre with
  | nil =>
    intro k v post _ hk
    simp [FLSATTrimTimesMap.addScan, hk]
  | cons hd tl ih =>
    intro k v post hall hk
    obtain ⟨k0, v0⟩ := hd
    have hk0 : operatorEq tol k0 tt = false := hall (k0, v0) (by simp)
    simp only [List.cons_append, FLSATTrimTimesMap.addScan, hk0]
    simp only [Bool.false_eq_true, if_false, List.cons.injEq, true_and]
    exact ih k v post (fun p hp => hall p (by simp [hp])) hk

/-- Claim C5, counterexample: a map built only through `Add` can end with
two `operator==`-equal keys.  With tolerance 200, inserting the valid
windows `[600, 0)`, `[0, 0)` and `[0, 600)` (all on the asset with
identity 7) produces keys `[600, 600)` and `[0, 0)`: the third insertion
widens the first key into a different hash bucket, which collides with the
second key under the XOR-combined hash. -/
theorem c5_counterexample :
    (FLSATTrimTimesMap.ofAdds 200
        [(⟨600, 0, some ⟨7, 10000⟩⟩, some 1),
         (⟨0, 0, some ⟨7, 10000⟩⟩, some 2),
         (⟨0, 600, some ⟨7, 10000⟩⟩, some 3)]).keys =
      [⟨600, 600, some ⟨7, 10000⟩⟩, ⟨0, 0, some ⟨7, 10000⟩⟩] ∧
    operatorEq 200 ⟨600, 600, some ⟨7, 10000⟩⟩ ⟨0, 0, some ⟨7, 10000⟩⟩ = true := by
  decide

/-- Claim C5 (amended): `Add` with a valid key that is `operator==`-equal
to an existing key does not insert a new entry: the first such key is
replaced by the component-wise maximum of the two windows and the section
is appended (uniquely) to that key's container, all other entries
unchanged, and the call returns true.  A fresh entry is appended only when
no existing key compares equal.  (Pairwise non-equality of the keys is
not an invariant: see the counterexample.) -/
theorem c5_add_merges (tol : Int) (m : FLSATTrimTimesMap) (tt : FLSATTrimTimes)
    (sec : SectionId) (hv : tt.IsValid = true) :
    (∀ pre k v post,
      m.entries = pre ++ (k, v) :: post →
      (∀ p ∈ pre, operatorEq tol p.1 tt = false) →
      operatorEq tol k tt = true →
      (m.Add tol tt (some sec)).1 = true ∧
      (m.Add tol tt (some sec)).2.entries =
        pre ++ (FLSATTrimTimes.GetMaxTrimTimes tt k, v.Add sec) :: post) ∧
    ((∀ p ∈ m.entries, operatorEq tol p.1 tt = false) →
      (m.Add tol tt (some sec)).1 = true ∧
      (m.Add tol tt (some sec)).2.entries = m.entries ++ [(tt, ⟨[sec]⟩)]) := by
  constructor
  · intro pre k v post hsplit hpre hk
    have hAdd : m.Add tol tt (some sec) =
        (true, ⟨FLSATTrimTimesMap.addScan tol tt sec m.entries⟩) := by
      simp [FLSATTrimTimesMap.Add, hv]
    rw [hAdd]
    refine ⟨rfl, ?_⟩
    rw [hsplit]
    exact addScan_of_found tol tt sec pre k v post hpre hk
  · intro hall
    have hAdd : m.Add tol tt (some sec) =
        (true, ⟨FLSATTrimTimesMap.addScan tol tt sec m.entries⟩) := by
      simp [FLSATTrimTimesMap.Add, hv]
    rw [hAdd]
    exact ⟨rfl, addScan_of_not_found tol tt sec m.entries hall⟩

/-- Witness for `c5_add_merges`: with tolerance 200, adding `[150, 1100)`
into a map whose sole key is `[0, 1000)` (equal under `operator==`) widens
that key to `[150, 1100)` and appends the section. -/
theorem c5_add_merges_witness :
    ((FLSATTrimTimesMap.mk [(⟨0, 1000, some ⟨7, 10000⟩⟩, ⟨[1]⟩)]).Add 200
        ⟨150, 1100, some ⟨7, 10000⟩⟩ (some 2)).1 = true ∧
    ((FLSATTrimTimesMap.mk [(⟨0, 1000, some ⟨7, 10000⟩⟩, ⟨[1]⟩)]).Add 200
        ⟨150, 1100, some ⟨7, 10000⟩⟩ (some 2)).2.entries =
      [(⟨150, 1100, some ⟨7, 10000⟩⟩, ⟨[1, 2]⟩)] := by
  have h := (c5_add_merges 200 ⟨[(⟨0, 1000, some ⟨7, 10000⟩⟩, ⟨[1]⟩)]⟩
      ⟨150, 1100, some ⟨7, 10000⟩⟩ 2 (by decide)).1
      [] ⟨0, 1000, some ⟨7, 10000⟩⟩ ⟨[1]⟩ [] rfl (by intro p hp; cases hp) (by decide)
  refine ⟨h.1, ?_⟩
  rw [h.2]
  decide

/-- Claim C4, counterexample: in the run over one level sequence with a
non-empty gathered multimap, the external-usage pass
(`GatherSoundsOutsideSequences`, which applies the sounds-outside-
sequences policy) occurs exactly once, at position 2 of the pass trace,
which is before the track-boundary (3), large-start-offset (4) and
looping-sound (5) passes — not after them as claimed. -/
theorem c4_counterexample :
    runPassTrace 1 false =
      [.gatherRequestedSequence, .gatherOtherSequences, .gatherOutsideSequences,
       .trackBoundaries, .largeStartOffset, .loopingSoundsPolicy, .segmentsReusePolicy] ∧
    (runPassTrace 1 false).count .gatherOutsideSequences = 1 ∧
    (runPassTrace 1 false)[2]? = some .gatherOutsideSequences ∧
    (runPassTrace 1 false)[3]? = some .trackBoundaries ∧
    (runPassTrace 1 false)[4]? = some .largeStartOffset ∧
    (runPassTrace 1 false)[5]? = some .loopingSoundsPolicy := by
  decide

/-- Unfolding of the pass trace over one more requested sequence. -/
theorem runPassTrace_succ (n : Nat) (e : Bool) :
    runPassTrace (n + 1) e =
      PipelinePass.gatherRequestedSequence :: .gatherOtherSequences ::
        .gatherOutsideSequences :: runPassTrace n e := by
  simp [runPassTrace, List.replicate_succ, gatherPassesPerSequence]

/-- Claim C4 (amended): in every run of the pipeline, every occurrence of
the external-usage (sounds-outside-sequences) policy pass comes before
every occurrence of the track-boundary clipping, large-start-offset
normalization, looping-sound policy and segment-reuse passes: it is
applied during gathering, before the whole preprocessing phase. -/
theorem c4_external_usage_before_preprocessing (n : Nat) (e : Bool) (i j : Nat)
    (p : PipelinePass)
    (hi : (runPassTrace n e)[i]? = some .gatherOutsideSequences)
    (hj : (runPassTrace n e)[j]? = some p)
    (hp : p ∈ preprocessingPasses) : i < j := by
  induction n generalizing i j with
  | zero =>
    exfalso
    cases e with
    | true => simp [runPassTrace] at hi
    | false =>
      have hmem : PipelinePass.gatherOutsideSequences ∈ runPassTrace 0 false :=
        List.getElem?_mem hi
      revert hmem
      decide
  | succ n ih =>
    rw [runPassTrace_succ] at hi hj
    have hjge : 3 ≤ j := by
      by_contra hlt
      interval_cases j <;> simp_all <;> (revert hp; subst hj; decide)
    match i with
    | 0 => omega
    | 1 => omega
    | 2 => omega
    | i0 + 3 =>
      match j, hjge with
      | j0 + 3, _ =>
        simp only [List.getElem?_cons_succ] at hi hj
        have := ih i0 j0 hi hj
        omega

/-- Witness for `c4_external_usage_before_preprocessing` on the
one-sequence trace: the external-usage pass at position 2 precedes the
track-boundary pass at position 3. -/
theorem c4_external_usage_before_preprocessing_witness :
    (runPassTrace 1 false)[2]? = some .gatherOutsideSequences ∧
    (runPassTrace 1 false)[3]? = some .trackBoundaries ∧ 2 < 3 :=
  ⟨by decide, by decide,
    c4_external_usage_before_preprocessing 1 false 2 3 .trackBoundaries
      (by decide) (by decide) (by decide)⟩

/-- In reuse mode (`bReuseFurtherSections = true`) the section loop only
resets sections: no export, trim, reimport or delete call occurs. -/
theorem processSections_reuse_trace (env : ExecEnv) (sw : Nat) :
    ∀ (sections : List SectionId) (k : Nat) (fs : List WavPath)
      (store : SectionId → SectionState),
      (processSections env sw sections k true fs store).1 =
        sections.map ExecEvent.resetCall := by
  intro sections
  induction sections with
  | nil => intro k fs store; rfl
  | cons s rest ih =>
    intro k fs store
    simp only [processSections, if_true, List.map_cons, List.cons.injEq, true_and]
    exact ih k fs _

/-- In reuse mode every section of the list, and every section already
reset, ends reset in the final store: start offset 0, looping off, sound
retargeted to the group's (possibly duplicated) wave. -/
theorem processSections_reuse_store (env : ExecEnv) (sw : Nat) :
    ∀ (sections : List SectionId) (k : Nat) (fs : List WavPath)
      (store : SectionId → SectionState) (s : SectionId),
      (s ∈ sections ∨ store s = ⟨0, false, some sw⟩) →
      (processSections env sw sections k true fs store).2.2 s = ⟨0, false, some sw⟩ := by
  intro sections
  induction sections with
  | nil =>
    intro k fs store s hs
    rcases hs with hs | hs
    · cases hs
    · exact hs
  | cons s0 rest ih =>
    intro k fs store s hs
    simp only [processSections, if_true]
    apply ih
    by_cases heq : s = s0
    · subst heq
      right
      simp [updateStore, resetTrimmedAudioSection]
    · rcases hs with hs | hs
      · rcases List.mem_cons.mp hs with hs | hs
        · exact absurd hs heq
        · exact Or.inl hs
      · right
        simpa [updateStore, heq] using hs

/-- Claim C2, counterexample: in a group whose first (and only) section
exports successfully but fails the trim step, the loop `continue`s without
any `DeleteTempWavFile` call, and the exported temporary WAV file remains
on disk — the claimed deletion on the trim-failure exit path does not
happen. -/
theorem c2_counterexample :
    (processSections
        ⟨fun _ => true, fun _ => false, fun _ => true, fun _ => true⟩ 7 [1] 0 false []
        (fun _ => ⟨5, true, none⟩)).1 = [.exportCall 7 true, .trimCall false] ∧
    countDeleteCalls
      (processSections
        ⟨fun _ => true, fun _ => false, fun _ => true, fun _ => true⟩ 7 [1] 0 false []
        (fun _ => ⟨5, true, none⟩)).1 = 0 ∧
    WavPath.exported 7 ∈
      (processSections
        ⟨fun _ => true, fun _ => false, fun _ => true, fun _ => true⟩ 7 [1] 0 false []
        (fun _ => ⟨5, true, none⟩)).2.1 := by
  decide

/-- Claim C2 (amended): deleting a non-existent temporary file is treated
as success (`DeleteTempWavFile` returns true), and during a group's
processing the two temporary files are deleted exactly on the success
path: every run performs exactly two `DeleteTempWavFile` calls per
successful export+trim+reimport sequence and none during failed
attempts. -/
theorem c2_cleanup_only_on_success :
    (∀ (env : ExecEnv) (fs : List WavPath) (p : WavPath),
      p ∉ fs → (deleteTempWavFile env fs p).1 = true) ∧
    (∀ (env : ExecEnv) (sw : Nat) (sections : List SectionId) (k : Nat) (bReuse : Bool)
      (fs : List WavPath) (store : SectionId → SectionState),
      countDeleteCalls (processSections env sw sections k bReuse fs store).1 =
        2 * countReimportSuccess (processSections env sw sections k bReuse fs store).1) := by
  constructor
  · intro env fs p hp
    simp [deleteTempWavFile, hp]
  · intro env sw sections
    induction sections with
    | nil => intro k bReuse fs store; rfl
    | cons s rest ih =>
      intro k bReuse fs store
      by_cases hb : bReuse
      · subst hb
        simp only [processSections, if_true, countDeleteCalls, countReimportSuccess,
          List.countP_cons] at ih ⊢
        simpa using ih k true fs _
      · simp only [Bool.not_eq_true] at hb
        subst hb
        by_cases he : env.exportOk k = true
        · by_cases ht : env.trimOk k = true
          · by_cases hr : env.reimportOk k = true
            · simp only [processSections, Bool.false_eq_true, if_false, he, ht, hr, if_true,
                countDeleteCalls, countReimportSuccess, List.countP_cons] at ih ⊢
              have := ih (k + 1) true
                (deleteTempWavFile env
                  (deleteTempWavFile env (createFile (createFile fs (.exported sw)) (.trimmed sw))
                    (.exported sw)).2 (.trimmed sw)).2
                (updateStore store s (resetTrimmedAudioSection (some sw) (store s)))
              simp only [countDeleteCalls, countReimportSuccess] at this
              omega
            · simp only [Bool.not_eq_true] at hr
              simp only [processSections, Bool.false_eq_true, if_false, he, ht, hr, if_true,
                countDeleteCalls, countReimportSuccess, List.countP_cons] at ih ⊢
              have := ih (k + 1) false (createFile (createFile fs (.exported sw)) (.trimmed sw))
                store
              simp only [countDeleteCalls, countReimportSuccess] at this
              omega
          · simp only [Bool.not_eq_true] at ht
            simp only [processSections, Bool.false_eq_true, if_false, he, ht, if_true,
              countDeleteCalls, countReimportSuccess, List.countP_cons] at ih ⊢
            have := ih (k + 1) false (createFile fs (.exported sw)) store
            simp only [countDeleteCalls, countReimportSuccess] at this
            omega
        · simp only [Bool.not_eq_true] at he
          simp only [processSections, Bool.false_eq_true, if_false, he,
            countDeleteCalls, countReimportSuccess, List.countP_cons] at ih ⊢
          have := ih (k + 1) false fs store
          simp only [countDeleteCalls, countReimportSuccess] at this
          omega

/-- Witness for `c2_cleanup_only_on_success`: deleting a file from an empty
file system succeeds, and an all-successful two-section group performs
exactly two delete calls for its one reimport. -/
theorem c2_cleanup_only_on_success_witness :
    (deleteTempWavFile ⟨fun _ => true, fun _ => true, fun _ => true, fun _ => true⟩ []
      (.exported 7)).1 = true ∧
    countDeleteCalls
      (processSections ⟨fun _ => true, fun _ => true, fun _ => true, fun _ => true⟩ 7 [1, 2] 0
        false [] (fun _ => ⟨5, true, none⟩)).1 =
      2 * countReimportSuccess
        (processSections ⟨fun _ => true, fun _ => true, fun _ => true, fun _ => true⟩ 7 [1, 2] 0
          false [] (fun _ => ⟨5, true, none⟩)).1 :=
  ⟨c2_cleanup_only_on_success.1 ⟨fun _ => true, fun _ => true, fun _ => true, fun _ => true⟩ []
      (.exported 7) (by decide),
   c2_cleanup_only_on_success.2 ⟨fun _ => true, fun _ => true, fun _ => true, fun _ => true⟩ 7
      [1, 2] 0 false [] (fun _ => ⟨5, true, none⟩)⟩

/-- Claim C3, counterexample: when the export collaborator fails, the
group's only section is never reset — it keeps its original start offset 5
and its looping flag on, so not every section of a processed group ends
with start offset 0 and looping off. -/
theorem c3_counterexample :
    ((processSections
        ⟨fun _ => false, fun _ => true, fun _ => true, fun _ => true⟩ 7 [1] 0 false []
        (fun _ => ⟨5, true, none⟩)).2.2 1).startOffsetMs = 5 ∧
    ((processSections
        ⟨fun _ => false, fun _ => true, fun _ => true, fun _ => true⟩ 7 [1] 0 false []
        (fun _ => ⟨5, true, none⟩)).2.2 1).bLooping = true := by
  decide

/-- Claim C3 (amended): for every group and every outcome of the
collaborators, at most one successful export+trim+reimport sequence is
performed; and when the export, trim and reimport collaborators all
succeed, every section of the group ends with start offset 0 and its
looping flag off. -/
theorem c3_at_most_one_transcode :
    (∀ (env : ExecEnv) (sw : Nat) (sections : List SectionId) (k : Nat) (bReuse : Bool)
      (fs : List WavPath) (store : SectionId → SectionState),
      countReimportSuccess (processSections env sw sections k bReuse fs store).1 ≤ 1) ∧
    (∀ (env : ExecEnv) (sw : Nat) (sections : List SectionId) (k : Nat)
      (fs : List WavPath) (store : SectionId → SectionState),
      (∀ m, env.exportOk m = true ∧ env.trimOk m = true ∧ env.reimportOk m = true) →
      ∀ s ∈ sections,
        ((processSections env sw sections k false fs store).2.2 s).startOffsetMs = 0 ∧
        ((processSections env sw sections k false fs store).2.2 s).bLooping = false) := by
  have hreuse0 : ∀ (env : ExecEnv) (sw : Nat) (sections : List SectionId) (k : Nat)
      (fs : List WavPath) (store : SectionId → SectionState),
      countReimportSuccess (processSections env sw sections k true fs store).1 = 0 := by
    intro env sw sections k fs store
    rw [processSections_reuse_trace env sw sections k fs store]
    induction sections with
    | nil => rfl
    | cons s rest ih =>
      simp only [countReimportSuccess, List.map_cons, List.countP_cons] at ih ⊢
      simp [ih]
  constructor
  · intro env sw sections
    induction sections with
    | nil => intro k bReuse fs store; simp [processSections, countReimportSuccess]
    | cons s rest ih =>
      intro k bReuse fs store
      by_cases hb : bReuse = true
      · subst hb
        rw [hreuse0]
        omega
      · simp only [Bool.not_eq_true] at hb
        subst hb
        by_cases he : env.exportOk k = true
        · by_cases ht : env.trimOk k = true
          · by_cases hr : env.reimportOk k = true
            · simp only [processSections, Bool.false_eq_true, if_false, he, ht, hr, if_true,
                countReimportSuccess, List.countP_cons]
              have h0 := hreuse0 env sw rest (k + 1)
                (deleteTempWavFile env
                  (deleteTempWavFile env (createFile (createFile fs (.exported sw)) (.trimmed sw))
                    (.exported sw)).2 (.trimmed sw)).2
                (updateStore store s (resetTrimmedAudioSection (some sw) (store s)))
              simp only [countReimportSuccess] at h0
              omega
            · simp only [Bool.not_eq_true] at hr
              simp only [processSections, Bool.false_eq_true, if_false, he, ht, hr, if_true,
                countReimportSuccess, List.countP_cons]
              have := ih (k + 1) false (createFile (createFile fs (.exported sw)) (.trimmed sw))
                store
              simp only [countReimportSuccess] at this
              omega
          · simp only [Bool.not_eq_true] at ht
            simp only [processSections, Bool.false_eq_true, if_false, he, ht, if_true,
              countReimportSuccess, List.countP_cons]
            have := ih (k + 1) false (createFile fs (.exported sw)) store
            simp only [countReimportSuccess] at this
            omega
        · simp only [Bool.not_eq_true] at he
          simp only [processSections, Bool.false_eq_true, if_false, he,
            countReimportSuccess, List.countP_cons]
          have := ih (k + 1) false fs store
          simp only [countReimportSuccess] at this
          omega
  · intro env sw sections k fs store hok s hs
    cases sections with
    | nil => cases hs
    | cons s0 rest =>
      have hfinal :
          (processSections env sw (s0 :: rest) k false fs store).2.2 s = ⟨0, false, some sw⟩ := by
        obtain ⟨he, ht, hr⟩ := hok k
        simp only [processSections, Bool.false_eq_true, if_false, he, ht, hr, if_true]
        apply processSections_reuse_store
        by_cases heq : s = s0
        · subst heq
          right
          simp [updateStore, resetTrimmedAudioSection]
        · rcases List.mem_cons.mp hs with hs0 | hs0
          · exact absurd hs0 heq
          · exact Or.inl hs0
      rw [hfinal]
      exact ⟨rfl, rfl⟩

/-- Witness for `c3_at_most_one_transcode`: an all-successful two-section
group performs at most one transcode, and both its sections end with start
offset 0 and looping off. -/
theorem c3_at_most_one_transcode_witness :
    countReimportSuccess
      (processSections ⟨fun _ => true, fun _ => true, fun _ => true, fun _ => true⟩ 7 [1, 2] 0
        false [] (fun _ => ⟨5, true, none⟩)).1 ≤ 1 ∧
    ((processSections ⟨fun _ => true, fun _ => true, fun _ => true, fun _ => true⟩ 7 [1, 2] 0
        false [] (fun _ => ⟨5, true, none⟩)).2.2 2).startOffsetMs = 0 ∧
    ((processSections ⟨fun _ => true, fun _ => true, fun _ => true, fun _ => true⟩ 7 [1, 2] 0
        false [] (fun _ => ⟨5, true, none⟩)).2.2 2).bLooping = false :=
  ⟨c3_at_most_one_transcode.1 ⟨fun _ => true, fun _ => true, fun _ => true, fun _ => true⟩ 7
      [1, 2] 0 false [] (fun _ => ⟨5, true, none⟩),
   c3_at_most_one_transcode.2 ⟨fun _ => true, fun _ => true, fun _ => true, fun _ => true⟩ 7
      [1, 2] 0 [] (fun _ => ⟨5, true, none⟩) (fun _ => ⟨rfl, rfl, rfl⟩) 2 (by decide)⟩

/-- Membership in the unique-add of the split-point set. -/
theorem mem_addUniqueInt (l : List Int) (y x : Int) :
    x ∈ addUniqueInt l y ↔ x ∈ l ∨ x = y := by
  unfold addUniqueInt
  by_cases hy : y ∈ l
  · simp only [hy, if_true]
    constructor
    · exact Or.inl
    · rintro (h | rfl)
      · exact h
      · exact hy
  · simp [hy]

/-- The unique-add preserves distinctness of the split-point set. -/
theorem nodup_addUniqueInt (l : List Int) (y : Int) (h : l.Nodup) :
    (addUniqueInt l y).Nodup := by
  unfold addUniqueInt
  by_cases hy : y ∈ l
  · simpa [hy]
  · rw [if_neg hy]
    exact List.Nodup.append h (List.nodup_singleton y) (by simpa using hy)

/-- Membership in the collected split points: exactly the endpoints of the
windows (plus whatever the accumulator already held). -/
theorem collectSplitPoints_fold_mem (ts : List FLSATTrimTimes) :
    ∀ (acc : List Int) (x : Int),
      x ∈ ts.foldl
          (fun acc t => addUniqueInt (addUniqueInt acc t.SoundTrimStartMs) t.SoundTrimEndMs)
          acc ↔
        x ∈ acc ∨ x ∈ ts.flatMap fun t => [t.SoundTrimStartMs, t.SoundTrimEndMs] := by
  induction ts with
  | nil => simp
  | cons t rest ih =>
    intro acc x
    simp only [List.foldl_cons, List.flatMap_cons, List.mem_append, List.mem_cons,
      List.mem_singleton]
    rw [ih, mem_addUniqueInt, mem_addUniqueInt]
    tauto

/-- The collected split points are distinct. -/
theorem collectSplitPoints_fold_nodup (ts : List FLSATTrimTimes) :
    ∀ acc : List Int, acc.Nodup →
      (ts.foldl
        (fun acc t => addUniqueInt (addUniqueInt acc t.SoundTrimStartMs) t.SoundTrimEndMs)
        acc).Nodup := by
  induction ts with
  | nil => intro acc h; exact h
  | cons t rest ih =>
    intro acc h
    exact ih _ (nodup_addUniqueInt _ _ (nodup_addUniqueInt _ _ h))

/-- The split-point set collected in insertion order is a permutation of
the deduplicated endpoint list. -/
theorem collectSplitPoints_perm (ts : List FLSATTrimTimes) :
    (collectSplitPoints ts).Perm
      ((ts.flatMap fun t => [t.SoundTrimStartMs, t.SoundTrimEndMs]).dedup) := by
  unfold collectSplitPoints
  rw [List.perm_ext_iff_of_nodup (collectSplitPoints_fold_nodup ts [] List.nodup_nil)
    (List.nodup_dedup _)]
  intro a
  rw [List.mem_dedup]
  have := collectSplitPoints_fold_mem ts [] a
  simpa using this

/-- Sorting the insertion-ordered split-point set yields exactly the
sorted list of distinct endpoints. -/
theorem collectSplitPoints_sort_eq (ts : List FLSATTrimTimes) :
    (collectSplitPoints ts).insertionSort (· ≤ ·) = specSortedEndpoints ts := by
  apply List.eq_of_perm_of_sorted (r := fun a b : Int => a ≤ b)
  · exact ((List.perm_insertionSort _ _).trans (collectSplitPoints_perm ts)).trans
      (List.perm_insertionSort _ _).symm
  · exact List.sorted_insertionSort _ _
  · exact List.sorted_insertionSort _ _

/-- Claim C6: the fragmentation function returns exactly the segments
between consecutive values of the sorted set of all distinct window
endpoints, omitting every segment shorter than `MinDifferenceMs`; on the
windows `[4000, 5000)`, `[0, 5000)`, `[0, 1000)` with tolerance 200 it
yields exactly `[0, 1000)`, `[1000, 4000)`, `[4000, 5000)`. -/
theorem c6_fragmented_segments :
    (∀ (tol : Int) (ts : List FLSATTrimTimes) (sw : Option USoundWave),
      getFragmentedTrimTimes tol ts sw = specFragmentedTrimTimes tol ts sw) ∧
    getFragmentedTrimTimes 200
        [⟨4000, 5000, some ⟨7, 10000⟩⟩, ⟨0, 5000, some ⟨7, 10000⟩⟩, ⟨0, 1000, some ⟨7, 10000⟩⟩]
        (some ⟨7, 10000⟩) =
      [⟨0, 1000, some ⟨7, 10000⟩⟩, ⟨1000, 4000, some ⟨7, 10000⟩⟩,
       ⟨4000, 5000, some ⟨7, 10000⟩⟩] := by
  constructor
  · intro tol ts sw
    unfold getFragmentedTrimTimes specFragmentedTrimTimes
    rw [collectSplitPoints_sort_eq]
  · decide

/-- The trailing run never exceeds the string length. -/
theorem trailingRun_le (q : Char → Bool) : ∀ l : List Char, trailingRun q l ≤ l.length := by
  intro l
  induction l with
  | nil => simp [trailingRun]
  | cons c rest ih =>
    simp only [trailingRun, List.length_cons]
    split
    · omega
    · omega

/-- `FindLastCharByPredicate` with the negation of `q` finds the position
just before the trailing run of `q`-characters (`-1` when the whole string
is such a run). -/
theorem findLastCharByPredicate_eq (q : Char → Bool) :
    ∀ l : List Char,
      findLastCharByPredicate (fun c => !(q c)) l =
        (l.length : Int) - 1 - (trailingRun q l : Int) := by
  intro l
  induction l with
  | nil => simp [findLastCharByPredicate, trailingRun]
  | cons c rest ih =>
    have hle : trailingRun q rest ≤ rest.length := trailingRun_le q rest
    simp only [findLastCharByPredicate, trailingRun, List.length_cons]
    rw [ih]
    by_cases hT : trailingRun q rest = rest.length
    · rw [if_neg (by omega)]
      by_cases hc : q c = true
      · rw [if_neg (by simp [hc]), if_pos (by simp [hT, hc])]
        push_cast
        omega
      · rw [if_pos (by simp [hc]), if_neg (by simp [hc])]
        push_cast
        omega
    · rw [if_pos (by omega), if_neg (by simp [hT])]
      push_cast
      omega

/-- Digit characters have the expected numeric value. -/
theorem digitVal_digitChar (d : Nat) (h : d < 10) : digitVal (digitChar d) = d := by
  interval_cases d <;> decide

/-- `Atoi` folds one more trailing digit as base-10 accumulation. -/
theorem atoiNat_append (l : List Char) (c : Char) :
    atoiNat (l ++ [c]) = 10 * atoiNat l + digitVal c := by
  simp [atoiNat, List.foldl_append]

/-- Parsing the decimal representation gives back the value. -/
theorem atoiNat_natToChars (n : Nat) : atoiNat (natToChars n) = n := by
  induction n using Nat.strong_induction_on with
  | _ n ih =>
    rw [natToChars]
    split
    · next h =>
      simp only [atoiNat, List.foldl_cons, List.foldl_nil, Nat.mul_zero, Nat.zero_add]
      exact digitVal_digitChar n h
    · next h =>
      rw [atoiNat_append, ih (n / 10) (Nat.div_lt_self (by omega) (by omega)),
        digitVal_digitChar (n % 10) (Nat.mod_lt _ (by omega))]
      omega

/-- The decimal representation is never empty. -/
theorem natToChars_ne_nil (n : Nat) : natToChars n ≠ [] := by
  rw [natToChars]
  split
  · simp
  · simp

/-- Claim C8: for every original asset name and every suffix index at least
1, the duplicate-name derivation increments the trailing digit run by the
index when the name ends in digits, otherwise appends the index; the
derived name never equals the original, so `DuplicateSoundWave` never hits
its collision assertion and always proceeds under the derived name. -/
theorem c8_duplicate_name_derivation (Name : List Char) (idx : Nat) (hidx : 1 ≤ idx) :
    (0 < trailingRun isDigitChar Name →
      deriveDuplicateName Name idx =
        Name.take (Name.length - trailingRun isDigitChar Name) ++
          natToChars
            (atoiNat (Name.drop (Name.length - trailingRun isDigitChar Name)) + idx)) ∧
    (trailingRun isDigitChar Name = 0 →
      deriveDuplicateName Name idx = Name ++ natToChars idx) ∧
    deriveDuplicateName Name idx ≠ Name ∧
    duplicateSoundWaveName Name idx = some (deriveDuplicateName Name idx) := by
  have hle : trailingRun isDigitChar Name ≤ Name.length := trailingRun_le _ _
  have hIdx : findLastCharByPredicate (fun c => !(isDigitChar c)) Name =
      (Name.length : Int) - 1 - (trailingRun isDigitChar Name : Int) :=
    findLastCharByPredicate_eq _ _
  have htn : ((Name.length : Int) - 1 - (trailingRun isDigitChar Name : Int) + 1).toNat =
      Name.length - trailingRun isDigitChar Name := by omega
  have hpos : 0 < trailingRun isDigitChar Name →
      deriveDuplicateName Name idx =
        Name.take (Name.length - trailingRun isDigitChar Name) ++
          natToChars
            (atoiNat (Name.drop (Name.length - trailingRun isDigitChar Name)) + idx) := by
    intro hT
    unfold deriveDuplicateName
    dsimp only
    rw [hIdx, htn, if_pos (by omega)]
  have hzero : trailingRun isDigitChar Name = 0 →
      deriveDuplicateName Name idx = Name ++ natToChars idx := by
    intro hT
    unfold deriveDuplicateName
    dsimp only
    rw [hIdx, htn, if_neg (by omega), hT, Nat.sub_zero, List.take_length]
  have hne : deriveDuplicateName Name idx ≠ Name := by
    by_cases hT : 0 < trailingRun isDigitChar Name
    · rw [hpos hT]
      intro hcontra
      have hsplit : Name.take (Name.length - trailingRun isDigitChar Name) ++
          Name.drop (Name.length - trailingRun isDigitChar Name) = Name :=
        List.take_append_drop _ _
      have hcancel :
          natToChars
              (atoiNat (Name.drop (Name.length - trailingRun isDigitChar Name)) + idx) =
            Name.drop (Name.length - trailingRun isDigitChar Name) :=
        List.append_cancel_left (hcontra.trans hsplit.symm)
      have := congrArg atoiNat hcancel
      rw [atoiNat_natToChars] at this
      omega
    · have hT0 : trailingRun isDigitChar Name = 0 := by omega
      rw [hzero hT0]
      intro hcontra
      have h2 : Name ++ natToChars idx = Name ++ [] := by simpa using hcontra
      exact natToChars_ne_nil idx (List.append_cancel_left h2)
  refine ⟨hpos, hzero, hne, ?_⟩
  unfold duplicateSoundWaveName
  rw [if_neg (fun h => hne h.symm)]

/-- Witness for `c8_duplicate_name_derivation` on the name `Step1` with
suffix index 1: the derived name differs from the original and the
duplication proceeds. -/
theorem c8_duplicate_name_derivation_witness :
    deriveDuplicateName ['S', 't', 'e', 'p', '1'] 1 ≠ ['S', 't', 'e', 'p', '1'] ∧
    duplicateSoundWaveName ['S', 't', 'e', 'p', '1'] 1 =
      some (deriveDuplicateName ['S', 't', 'e', 'p', '1'] 1) :=
  ⟨(c8_duplicate_name_derivation ['S', 't', 'e', 'p', '1'] 1 (by decide)).2.2.1,
   (c8_duplicate_name_derivation ['S', 't', 'e', 'p', '1'] 1 (by decide)).2.2.2⟩

/-- Witness for `c10_add_invalid_unchanged`: adding the invalid sentinel
trim times with a non-null section to the empty map fails and leaves the
map empty. -/
theorem c10_add_invalid_unchanged_witness :
    FLSATTrimTimesMap.empty.Add 200 FLSATTrimTimes.Invalid (some 1) =
      (false, FLSATTrimTimesMap.empty) :=
  c10_add_invalid_unchanged 200 FLSATTrimTimesMap.empty FLSATTrimTimes.Invalid (some 1)
    (Or.inr (Or.inl (by decide)))

end LSAT
